import Mathlib

/-!
Shallow embedding of the gin-compress middleware (rdelcampog/compress).

The streaming response writer (`respWriter` together with its
`trackingResponseWriter` shim) is embedded from the source file that defines
it.  The compressor streams themselves are external codec libraries that the
middleware treats as opaque `io.WriteCloser`s; each call into a compressor is
therefore parametrised by an oracle describing what that call accepted,
emitted downstream and returned.  The negotiation engine and the
request-decompression pipeline are not part of the provided sources (only
their tests and the README are), so they are modelled from the specification,
as marked on their definitions.

Bytes are modelled as natural numbers (no byte arithmetic occurs anywhere in
the embedded code) and opaque error values as natural-number codes.
-/

namespace Compress

abbrev Byte := Nat

abbrev Err := Nat

/-- `MetricsData` as declared by the middleware: original size, compressed
size, whether compression was applied, and the encoding token used. -/
structure MetricsData where
  OriginalSize : Nat
  CompressedSize : Nat
  CompressionApplied : Bool
  EncodingUsed : String
deriving DecidableEq, Repr

/-- Response headers, modelled as an association list keyed by header name
(single-valued, which is how the middleware uses `Set`/`Del`/`Get`). -/
abbrev Headers := List (String × String)

/-- `Header().Del(k)`: drop every binding of `k`. -/
def hDel (h : Headers) (k : String) : Headers :=
  match h with
  | [] => []
  | p :: t => if p.1 = k then hDel t k else p :: hDel t k

/-- `Header().Set(k, v)`: replaces any previous value of `k`. -/
def hSet (h : Headers) (k v : String) : Headers :=
  (k, v) :: hDel h k

/-- `Header().Get(k)`: first binding of `k`, if any. -/
def hGet (h : Headers) (k : String) : Option String :=
  match h with
  | [] => none
  | p :: t => if p.1 = k then some p.2 else hGet t k

/-- Whether header `k` is present. -/
def hHas (h : Headers) (k : String) : Bool :=
  (hGet h k).isSome

/-- State of one `respWriter` (source: the `respWriter` struct), fused with
the state of its `trackingResponseWriter` shim and of the transport sink:

* `threshold`, `encoding` — the `threshold` and `encoding` fields;
* `buf` — the `buf` field; `some bu` is a live `*bytes.Buffer` holding `bu`,
  `none` is the `nil` buffer after the swap (`Swapped()` tests this);
* `bytesWritten`, `compressedBytesCount` — the counter fields of `respWriter`;
* `headers`, `status` — the response header map and status code;
* `compressorIn` — the bytes accepted so far by the current compressor stream
  (opaque codec state: exactly what was successfully written into it);
* `sink` — the bytes delivered to the underlying transport through the
  tracking writer;
* `trackerCount` — `trackingResponseWriter.bytesWritten`;
* `metricsLog` — the calls made to the metrics handler, in order. -/
structure RespWriter where
  threshold : Nat
  encoding : String
  buf : Option (List Byte)
  bytesWritten : Nat
  compressedBytesCount : Nat
  headers : Headers
  status : Nat
  compressorIn : List Byte
  sink : List Byte
  trackerCount : Nat
  metricsLog : List MetricsData
deriving DecidableEq, Repr

/-- `newResponseWriter`: fresh state over a response whose headers are `h0`. -/
def newResponseWriter (h0 : Headers) (swapSize : Nat) (encoding : String) :
    RespWriter :=
  { threshold := swapSize
    encoding := encoding
    buf := some []
    bytesWritten := 0
    compressedBytesCount := 0
    headers := h0
    status := 0
    compressorIn := []
    sink := []
    trackerCount := 0
    metricsLog := [] }

/-- `rw.Swapped()`: `rw.buf == nil`. -/
def RespWriter.Swapped (rw : RespWriter) : Bool :=
  rw.buf.isNone

/-- A write through the tracking shim to the transport sink: the bytes are
appended to the transport stream and counted by the tracking writer. -/
def RespWriter.emitToSink (rw : RespWriter) (bs : List Byte) : RespWriter :=
  { rw with sink := rw.sink ++ bs, trackerCount := rw.trackerCount + bs.length }

/-- Oracle describing one `Write` call on the opaque compressor stream:

* `ok emitted` — the call accepted every byte offered and, as a side effect,
  wrote `emitted` compressed bytes through to the sink;
* `err n lost emitted e` — the call accepted only the first `n` bytes offered,
  wrote `emitted` bytes through to the sink, and returned error `e`.  When the
  offer comes from `io.Copy` draining the buffer, `lost` is the number of bytes
  the copy consumed from the source buffer before failing (`io.Copy` reads a
  chunk from the source before writing it, so `n ≤ lost`); `lost` is unused
  for a direct write. -/
inductive CWRes where
  | ok (emitted : List Byte)
  | err (n lost : Nat) (emitted : List Byte) (e : Err)
deriving DecidableEq, Repr

/-- The common tail of `respWriter.Write` once `w` is the compressor:
`w.Write(b)` with behaviour `cw`; on success `bytesWritten` is incremented by
the accepted count, on error the error is returned and the counter is left
alone (source: the final `if n, err := w.Write(b)` block). -/
def writeToCompressor (rw : RespWriter) (b : List Byte) (cw : CWRes) :
    (Nat × Option Err) × RespWriter :=
  match cw with
  | .ok emitted =>
      ((b.length, none),
        (RespWriter.emitToSink
          { rw with compressorIn := rw.compressorIn ++ b
                    bytesWritten := rw.bytesWritten + b.length } emitted))
  | .err n _ emitted e =>
      ((n, some e),
        (RespWriter.emitToSink
          { rw with compressorIn := rw.compressorIn ++ b.take n } emitted))

/-- `respWriter.Write(b)`.  `drain` is the compressor's behaviour for the
`io.Copy(rw.compressor, rw.buf)` performed at swap time (consulted only when
the swap condition triggers); `cw` is its behaviour for the write of `b`
itself (consulted only when the writer is swapped by then).

Source, line by line: delete `Content-Length`; if not swapped and
`buf.Len()+len(b) >= threshold`, set `Content-Encoding` and `Vary`, create a
fresh compressor, drain the buffer into it — returning `(copied, err)` early
if the copy fails, in which case `buf` is *not* set to nil — and otherwise set
`buf = nil`; finally write `b` to the compressor (if swapped) or the buffer
(otherwise; a `bytes.Buffer` write always accepts every byte). -/
def RespWriter.Write (rw : RespWriter) (b : List Byte) (drain cw : CWRes) :
    (Nat × Option Err) × RespWriter :=
  let rw1 := { rw with headers := hDel rw.headers "Content-Length" }
  match rw.buf with
  | some bu =>
      if bu.length + b.length ≥ rw.threshold then
        let rw2 := { rw1 with
          headers := hSet (hSet rw1.headers "Content-Encoding" rw.encoding)
                        "Vary" "Accept-Encoding" }
        match drain with
        | .ok emitted =>
            writeToCompressor
              (RespWriter.emitToSink
                { rw2 with compressorIn := bu, buf := none } emitted) b cw
        | .err n lost emitted e =>
            ((n, some e),
              (RespWriter.emitToSink
                { rw2 with compressorIn := bu.take n
                           buf := some (bu.drop lost) } emitted))
      else
        ((b.length, none),
          { rw1 with buf := some (bu ++ b)
                     bytesWritten := rw.bytesWritten + b.length })
  | none => writeToCompressor rw1 b cw

/-- `respWriter.WriteHeader(code)`: strip `Content-Length`, record the code. -/
def RespWriter.WriteHeader (rw : RespWriter) (code : Nat) : RespWriter :=
  { rw with headers := hDel rw.headers "Content-Length", status := code }

/-- `rw.GetCompressionApplied()`. -/
def RespWriter.GetCompressionApplied (rw : RespWriter) : Bool :=
  rw.Swapped

/-- `rw.GetEncoding()`. -/
def RespWriter.GetEncoding (rw : RespWriter) : String :=
  if rw.GetCompressionApplied then rw.encoding else ""

/-- `rw.GetOriginalSize()`. -/
def RespWriter.GetOriginalSize (rw : RespWriter) : Nat :=
  rw.bytesWritten

/-- `rw.GetCompressedSize()`: the tracking writer's count when compression was
applied, otherwise the original size. -/
def RespWriter.GetCompressedSize (rw : RespWriter) : Nat :=
  if rw.GetCompressionApplied then rw.trackerCount else rw.bytesWritten

/-- `rw.GetMetricsData()`. -/
def RespWriter.GetMetricsData (rw : RespWriter) : MetricsData :=
  { OriginalSize := rw.GetOriginalSize
    CompressedSize := rw.GetCompressedSize
    CompressionApplied := rw.GetCompressionApplied
    EncodingUsed := rw.GetEncoding }

/-- Oracle for `respWriter.Close`:

* `flush` — behaviour of the `io.Copy(rw.ResponseWriter, rw.buf)` taken on the
  passthrough path: `none` means the copy succeeded (every buffered byte
  reached the sink); `some (n, e)` means only the first `n` buffered bytes
  reached the sink before error `e`;
* `cclose` — behaviour of `rw.compressor.Close()` on the streaming path: the
  final compressed bytes it flushes through to the sink, and its returned
  error, if any. -/
structure CloseOracle where
  flush : Option (Nat × Err)
  cclose : List Byte × Option Err
deriving DecidableEq, Repr

/-- `respWriter.Close()`.  The body either copies the buffer verbatim to the
sink (not swapped) or closes the compressor (swapped); the deferred function
then updates `compressedBytesCount` and invokes the metrics handler with
`GetMetricsData()` computed from the state the body left behind — on every
path, error or not. -/
def RespWriter.Close (rw : RespWriter) (o : CloseOracle) :
    Option Err × RespWriter :=
  let body : Option Err × RespWriter :=
    match rw.buf with
    | some bu =>
        match o.flush with
        | none => (none, RespWriter.emitToSink { rw with buf := some [] } bu)
        | some (n, e) =>
            (some e,
              RespWriter.emitToSink { rw with buf := some (bu.drop n) }
                (bu.take n))
    | none => (o.cclose.2, RespWriter.emitToSink rw o.cclose.1)
  let rw1 := body.2
  let rw2 := { rw1 with
    compressedBytesCount :=
      if rw1.GetCompressionApplied then rw1.trackerCount
      else rw1.compressedBytesCount
    metricsLog := rw1.metricsLog ++ [rw1.GetMetricsData] }
  (body.1, rw2)

/-- One application-side operation on the writer during the response body
phase (the oracles ride along with the operation). -/
inductive Op where
  | write (b : List Byte) (drain cw : CWRes)
  | writeHeader (code : Nat)
deriving Repr

/-- Effect of one operation on the writer state. -/
def Op.step (rw : RespWriter) : Op → RespWriter
  | .write b drain cw => (rw.Write b drain cw).2
  | .writeHeader code => rw.WriteHeader code

/-- Run a sequence of operations. -/
def run (rw : RespWriter) : List Op → RespWriter
  | [] => rw
  | op :: ops => run (Op.step rw op) ops

/-- The bytes an operation offers to the writer. -/
def Op.bytes : Op → List Byte
  | .write b _ _ => b
  | .writeHeader _ => []

/-- Concatenation, in order, of all bytes the application wrote. -/
def writesTotal : List Op → List Byte
  | [] => []
  | op :: ops => op.bytes ++ writesTotal ops

/-- The op's drain oracle reports success (vacuously true for `writeHeader`;
the drain oracle is only consulted when the swap condition triggers). -/
def Op.drainOk : Op → Bool
  | .write _ (.ok _) _ => true
  | .write _ (.err ..) _ => false
  | .writeHeader _ => true

/-- Every compressor interaction carried by the op reports success. -/
def Op.allOk : Op → Bool
  | .write _ (.ok _) (.ok _) => true
  | .write _ _ _ => false
  | .writeHeader _ => true

/-- The plaintext bytes currently owned by the response path: the buffer
contents while buffering, the compressor's accepted input once swapped. -/
def RespWriter.pending (rw : RespWriter) : List Byte :=
  match rw.buf with
  | some bu => bu
  | none => rw.compressorIn

/-- The writer state after a full response: a fresh writer over headers `h0`,
the operations `ops`, then `Close` with oracle `o`. -/
def finalState (h0 : Headers) (th : Nat) (enc : String) (ops : List Op)
    (o : CloseOracle) : RespWriter :=
  ((run (newResponseWriter h0 th enc) ops).Close o).2

/-- A concrete already-swapped writer state, used by witnesses. -/
def swappedState : RespWriter :=
  { newResponseWriter [] 512 "gzip" with buf := none, bytesWritten := 7 }

/-- A concrete trace whose second write triggers the swap but whose buffer
drain into the compressor fails after emitting one compressed byte: the
compressor write accepts 0 of the 1 buffered bytes, the copy consumes that
byte from the buffer, one byte (99) reaches the sink, and error 0 is
returned. -/
def failedDrainOps : List Op :=
  [Op.write [7] (CWRes.ok []) (CWRes.ok []),
   Op.write [8] (CWRes.err 0 1 [99] 0) (CWRes.ok [])]

/-- A concrete one-write trace that swaps immediately (threshold 1). -/
def c9ops : List Op :=
  [Op.write [5] (CWRes.ok []) (CWRes.ok [])]

/-! ### Negotiation engine (modelled from the spec)

The negotiation source is not among the provided files (only its tests are),
so the definitions below follow the specification's algorithm (§4.1) word by
word.  Header text is processed as a list of characters. -/

/-- The four supported algorithms. -/
inductive Algo where
  | br
  | gzip
  | deflate
  | zstd
deriving DecidableEq, Repr

/-- The algorithm's encoding token. -/
def Algo.token : Algo → List Char
  | .br => ['b', 'r']
  | .gzip => ['g', 'z', 'i', 'p']
  | .deflate => ['d', 'e', 'f', 'l', 'a', 't', 'e']
  | .zstd => ['z', 's', 't', 'd']

/-- Rank in the fixed fallback order brotli > gzip > deflate > zstd. -/
def Algo.fallbackRank : Algo → Nat
  | .br => 3
  | .gzip => 2
  | .deflate => 1
  | .zstd => 0

/-- All four algorithms. -/
def allAlgos : List Algo := [.br, .gzip, .deflate, .zstd]

/-- Look a name up among the supported algorithm tokens. -/
def algoOfToken (n : List Char) : Option Algo :=
  if n = Algo.token .br then some .br
  else if n = Algo.token .gzip then some .gzip
  else if n = Algo.token .deflate then some .deflate
  else if n = Algo.token .zstd then some .zstd
  else none

/-- Negotiation-relevant configuration: which algorithms are enabled, and
their configured priorities. -/
structure NegotiationConfig where
  enabled : Algo → Bool
  priority : Algo → Int

/-- Split a character list at a separator (like `strings.Split`). -/
def splitOnChar (sep : Char) : List Char → List (List Char)
  | [] => [[]]
  | c :: cs =>
      if c = sep then [] :: splitOnChar sep cs
      else
        match splitOnChar sep cs with
        | [] => [[c]]
        | t :: ts => (c :: t) :: ts

/-- Whitespace for header-token trimming. -/
def isWS (c : Char) : Bool := c = ' ' || c = '\t'

/-- Trim leading and trailing whitespace. -/
def trimChars (l : List Char) : List Char :=
  ((l.dropWhile isWS).reverse.dropWhile isWS).reverse

/-- ASCII decimal digit test. -/
def isDigitC (c : Char) : Bool := 48 ≤ c.toNat && c.toNat ≤ 57

/-- Value of a digit string. -/
def digitsVal (l : List Char) : Nat :=
  l.foldl (fun a c => a * 10 + (c.toNat - 48)) 0

/-- Parse a decimal q-value into thousandths (for example 0.7 becomes 700):
the accepted shapes are `digits` and `digits.digits` with at most three
fraction digits; anything else is malformed. -/
def parseQDigits (l : List Char) : Option Nat :=
  match splitOnChar '.' l with
  | [ip] =>
      if ip ≠ [] ∧ ip.all isDigitC = true then some (digitsVal ip * 1000)
      else none
  | [ip, fp] =>
      if ip ≠ [] ∧ ip.all isDigitC = true ∧ fp.all isDigitC = true ∧
          fp.length ≤ 3 then
        some (digitsVal ip * 1000 + digitsVal fp * 10 ^ (3 - fp.length))
      else none
  | _ => none

/-- Modelled from the spec (§4.1 step 3): q defaults to 1.0, a malformed q is
treated as 1.0, and values are confined to [0, 1]. -/
def parseQ (l : List Char) : Nat :=
  match parseQDigits l with
  | some v => min v 1000
  | none => 1000

/-- One parsed `Accept-Encoding` token: a name and its q in thousandths. -/
structure Tok where
  name : List Char
  q : Nat
deriving DecidableEq, Repr

/-- Modelled from the spec (§4.1 step 3): a token is `name` or
`name;q=<value>`; a missing or malformed q parameter counts as 1.0. -/
def parseTok (t : List Char) : Tok :=
  match splitOnChar ';' t with
  | [] => ⟨[], 1000⟩
  | n :: ps =>
      ⟨trimChars n,
        match ps with
        | [] => 1000
        | p :: _ =>
            if (trimChars p).take 2 = ['q', '='] then
              parseQ ((trimChars p).drop 2)
            else 1000⟩

/-- Split a header value on commas into parsed tokens. -/
def tokensOf (h : List Char) : List Tok :=
  (splitOnChar ',' h).map (fun t => parseTok (trimChars t))

/-- A token that names `a` with `q = 0` (explicit rejection by name). -/
def explicitlyRejected (toks : List Tok) (a : Algo) : Bool :=
  toks.any (fun t => t.name == a.token && t.q == 0)

/-- Modelled from the spec (§4.1 step 4): the candidates named directly —
tokens with `q > 0` that name an enabled algorithm. -/
def namedCands (cfg : NegotiationConfig) (toks : List Tok) :
    List (Algo × Nat) :=
  toks.filterMap (fun t =>
    if t.q = 0 then none
    else
      match algoOfToken t.name with
      | some a => if cfg.enabled a then some (a, t.q) else none
      | none => none)

/-- Modelled from the spec (§4.1 step 4): a wildcard token with `q > 0`
matches any enabled algorithm not explicitly rejected by name elsewhere in
the header. -/
def wildcardCands (cfg : NegotiationConfig) (toks : List Tok) :
    List (Algo × Nat) :=
  (toks.filter (fun t => t.name == ['*'] && !(t.q == 0))).flatMap
    (fun t =>
      (allAlgos.filter
        (fun a => cfg.enabled a && !(explicitlyRejected toks a))).map
        (fun a => (a, t.q)))

/-- All candidates for a header value. -/
def allCands (cfg : NegotiationConfig) (h : String) : List (Algo × Nat) :=
  namedCands cfg (tokensOf h.toList) ++ wildcardCands cfg (tokensOf h.toList)

/-- Strict preference between candidates: higher `q`, then higher configured
priority, then the fixed fallback order. -/
def keyBetter (cfg : NegotiationConfig) (x y : Algo × Nat) : Bool :=
  decide (y.2 < x.2) ||
    (decide (x.2 = y.2) &&
      (decide (cfg.priority y.1 < cfg.priority x.1) ||
        (decide (cfg.priority x.1 = cfg.priority y.1) &&
          decide (y.1.fallbackRank < x.1.fallbackRank))))

/-- Select the maximum candidate under `keyBetter` (the earliest of tied
candidates wins). -/
def pickBest (cfg : NegotiationConfig) :
    List (Algo × Nat) → Option (Algo × Nat)
  | [] => none
  | c :: cs =>
      some (cs.foldl (fun b x => if keyBetter cfg x b then x else b) c)

/-- Modelled from the spec (§4.1 Negotiation Engine), whose source is not
among the provided files: the exclusion predicate short-circuits first; an
absent or empty header yields no compression; otherwise the header is split
into tokens, filtered to candidates, and the maximum by (q, priority,
fallback order) is selected. -/
def negotiate (cfg : NegotiationConfig) (excluded : Bool)
    (header : Option String) : Option Algo :=
  if excluded then none
  else
    match header with
    | none => none
    | some h =>
        if h = "" then none
        else (pickBest cfg (allCands cfg h)).map (fun c => c.1)

/-- The default configuration: all four algorithms enabled, priorities in
the order brotli > gzip > deflate > zstd. -/
def defaultNegotiationConfig : NegotiationConfig :=
  { enabled := fun _ => true
    priority := fun a => (a.fallbackRank : Int) }

/-! ### Request-decompression pipeline (modelled from the spec) -/

/-- Outcome of the request-decompression pipeline; `rejected` is the
unsupported-media-type-class outcome produced before application code
runs. -/
inductive DecompressOutcome where
  | passthrough
  | decoded (stages : List Algo)
  | rejected
deriving DecidableEq, Repr

/-- Decompression-relevant configuration. -/
structure DecompressConfig where
  decompressEnabled : Bool
  maxDecodeSteps : Nat
  algoEnabled : Algo → Bool

/-- Resolve one `Content-Encoding` token to an enabled, known algorithm. -/
def resolveTok (cfg : DecompressConfig) (t : List Char) : Option Algo :=
  match algoOfToken t with
  | some a => if cfg.algoEnabled a then some a else none
  | none => none

/-- The request's ordered encoding-token list. -/
def ceTokens (h : String) : List (List Char) :=
  (splitOnChar ',' h.toList).map trimChars

/-- Resolve every token, failing if any is unknown or disabled. -/
def resolveAll (cfg : DecompressConfig) :
    List (List Char) → Option (List Algo)
  | [] => some []
  | t :: ts =>
      match resolveTok cfg t with
      | none => none
      | some a =>
          match resolveAll cfg ts with
          | none => none
          | some rest => some (a :: rest)

/-- Modelled from the spec (§4.3 Decompression Pipeline), whose source is
not among the provided files: disabled decompression or an absent header
passes the body through unchanged; a token list with more entries than
`maxDecodeSteps`, or any unknown/disabled token, rejects the request before
application code runs; otherwise the reader is wrapped with the resolved
decoder stages in order. -/
def decompressPipeline (cfg : DecompressConfig)
    (contentEncoding : Option String) : DecompressOutcome :=
  if !cfg.decompressEnabled then .passthrough
  else
    match contentEncoding with
    | none => .passthrough
    | some h =>
        if (ceTokens h).length > cfg.maxDecodeSteps then .rejected
        else
          match resolveAll cfg (ceTokens h) with
          | some stages => .decoded stages
          | none => .rejected

/-! ### Header-map lemmas -/

lemma hGet_hDel_self (h : Headers) (k : String) : hGet (hDel h k) k = none := by
  induction h with
  | nil => rfl
  | cons p t ih => by_cases hp : p.1 = k <;> simp [hDel, hGet, hp, ih]

lemma hHas_hDel_self (h : Headers) (k : String) : hHas (hDel h k) k = false := by
  simp [hHas, hGet_hDel_self]

lemma hGet_hDel_ne (h : Headers) (k k' : String) (hk : k' ≠ k) :
    hGet (hDel h k) k' = hGet h k' := by
  have hkk : k ≠ k' := fun hc => hk hc.symm
  induction h with
  | nil => rfl
  | cons p t ih =>
      by_cases hp : p.1 = k
      · simp [hDel, hGet, hp, hkk, ih]
      · by_cases hq : p.1 = k' <;> simp [hDel, hGet, hp, hq, hk, ih]

lemma hHas_hDel_ne (h : Headers) (k k' : String) (hk : k' ≠ k) :
    hHas (hDel h k) k' = hHas h k' := by
  simp [hHas, hGet_hDel_ne h k k' hk]

lemma hGet_hSet_ne (h : Headers) (k v k' : String) (hk : k' ≠ k) :
    hGet (hSet h k v) k' = hGet h k' := by
  have hkk : k ≠ k' := fun hc => hk hc.symm
  simp [hSet, hGet, hkk, hGet_hDel_ne h k k' hk]

lemma hHas_hSet_ne (h : Headers) (k v k' : String) (hk : k' ≠ k) :
    hHas (hSet h k v) k' = hHas h k' := by
  simp [hHas, hGet_hSet_ne h k v k' hk]

lemma hGet_hSet_self (h : Headers) (k v : String) : hGet (hSet h k v) k = some v := by
  simp [hSet, hGet]

lemma hHas_hSet_self (h : Headers) (k v : String) : hHas (hSet h k v) k = true := by
  simp [hHas, hGet_hSet_self]

/-- The header shape produced by the swap branch never contains
`Content-Length` and always contains `Content-Encoding` and `Vary`. -/
lemma swapHeaders_spec (h : Headers) (enc : String) :
    hHas (hSet (hSet (hDel h "Content-Length") "Content-Encoding" enc)
        "Vary" "Accept-Encoding") "Content-Length" = false ∧
    hHas (hSet (hSet (hDel h "Content-Length") "Content-Encoding" enc)
        "Vary" "Accept-Encoding") "Content-Encoding" = true ∧
    hHas (hSet (hSet (hDel h "Content-Length") "Content-Encoding" enc)
        "Vary" "Accept-Encoding") "Vary" = true := by
  refine ⟨?_, ?_, ?_⟩
  · rw [hHas_hSet_ne _ _ _ _ (by decide), hHas_hSet_ne _ _ _ _ (by decide),
      hHas_hDel_self]
  · rw [hHas_hSet_ne _ _ _ _ (by decide), hHas_hSet_self]
  · rw [hHas_hSet_self]

/-! ### Field-preservation lemmas for the opaque-compressor helpers -/

lemma emitToSink_headers (s : RespWriter) (bs : List Byte) :
    (s.emitToSink bs).headers = s.headers := rfl

lemma emitToSink_buf (s : RespWriter) (bs : List Byte) :
    (s.emitToSink bs).buf = s.buf := rfl

lemma emitToSink_metricsLog (s : RespWriter) (bs : List Byte) :
    (s.emitToSink bs).metricsLog = s.metricsLog := rfl

lemma writeToCompressor_headers (s : RespWriter) (b : List Byte) (cw : CWRes) :
    ((writeToCompressor s b cw).2).headers = s.headers := by
  cases cw <;> simp [writeToCompressor, RespWriter.emitToSink]

lemma writeToCompressor_buf (s : RespWriter) (b : List Byte) (cw : CWRes) :
    ((writeToCompressor s b cw).2).buf = s.buf := by
  cases cw <;> simp [writeToCompressor, RespWriter.emitToSink]

lemma writeToCompressor_metricsLog (s : RespWriter) (b : List Byte) (cw : CWRes) :
    ((writeToCompressor s b cw).2).metricsLog = s.metricsLog := by
  cases cw <;> simp [writeToCompressor, RespWriter.emitToSink]

lemma writeToCompressor_threshold (s : RespWriter) (b : List Byte) (cw : CWRes) :
    ((writeToCompressor s b cw).2).threshold = s.threshold := by
  cases cw <;> simp [writeToCompressor, RespWriter.emitToSink]

lemma writeToCompressor_encoding (s : RespWriter) (b : List Byte) (cw : CWRes) :
    ((writeToCompressor s b cw).2).encoding = s.encoding := by
  cases cw <;> simp [writeToCompressor, RespWriter.emitToSink]

/-! ### C7: Content-Length is stripped at every Write and WriteHeader -/

/-- C7: at every call to `respWriter.Write` and to `respWriter.WriteHeader`,
any previously set `Content-Length` header is removed: the state either call
leaves behind never contains `Content-Length`. -/
theorem c7_content_length_stripped (s : RespWriter) (b : List Byte)
    (drain cw : CWRes) (code : Nat) :
    hHas ((s.Write b drain cw).2).headers "Content-Length" = false ∧
    hHas ((s.WriteHeader code)).headers "Content-Length" = false := by
  constructor
  · cases hb : s.buf with
    | none =>
        simp [RespWriter.Write, hb, writeToCompressor_headers, hHas_hDel_self]
    | some bu =>
        by_cases hth : bu.length + b.length ≥ s.threshold
        · cases drain with
          | ok emitted =>
              simp [RespWriter.Write, hb, hth, writeToCompressor_headers,
                RespWriter.emitToSink, (swapHeaders_spec _ _).1]
          | err n lost emitted e =>
              simp [RespWriter.Write, hb, hth, RespWriter.emitToSink,
                (swapHeaders_spec _ _).1]
        · simp [RespWriter.Write, hb, hth, hHas_hDel_self]
  · simp [RespWriter.WriteHeader, hHas_hDel_self]

/-! ### C8: the swapped flag is monotone -/

/-- C8: `Swapped` starts out false on a fresh writer, no operation ever takes
it from true back to false (neither a Write, a WriteHeader, a whole run of
operations, nor Close), so along any trace it flips false→true at most once
and never back. -/
theorem c8_swapped_monotone :
    (∀ h0 th enc, (newResponseWriter h0 th enc).Swapped = false) ∧
    (∀ (s : RespWriter) (op : Op),
      s.Swapped = true → (Op.step s op).Swapped = true) ∧
    (∀ (s : RespWriter) (ops : List Op),
      s.Swapped = true → (run s ops).Swapped = true) ∧
    (∀ (s : RespWriter) (o : CloseOracle),
      s.Swapped = true → ((s.Close o).2).Swapped = true) := by
  have hstep : ∀ (s : RespWriter) (op : Op),
      s.Swapped = true → (Op.step s op).Swapped = true := by
    intro s op hs
    have hb : s.buf = none := by
      simpa [RespWriter.Swapped, Option.isNone_iff_eq_none] using hs
    cases op with
    | write b drain cw =>
        simp [Op.step, RespWriter.Write, hb, RespWriter.Swapped,
          writeToCompressor_buf]
    | writeHeader code =>
        simp [Op.step, RespWriter.WriteHeader, RespWriter.Swapped, hb]
  refine ⟨fun h0 th enc => rfl, hstep, ?_, ?_⟩
  · intro s ops
    induction ops generalizing s with
    | nil => intro hs; simpa [run] using hs
    | cons op ops ih => intro hs; exact ih _ (hstep s op hs)
  · intro s o hs
    have hb : s.buf = none := by
      simpa [RespWriter.Swapped, Option.isNone_iff_eq_none] using hs
    simp [RespWriter.Close, hb, RespWriter.Swapped, RespWriter.emitToSink]

theorem c8_swapped_monotone_witness :
    (newResponseWriter [] 512 "gzip").Swapped = false ∧
    (Op.step swappedState (Op.write [1] (CWRes.ok []) (CWRes.ok []))).Swapped
      = true := by
  refine ⟨c8_swapped_monotone.1 [] 512 "gzip", ?_⟩
  exact c8_swapped_monotone.2.1 _ _ rfl

/-! ### C3: the metrics handler fires exactly once, at Close -/

/-- When the reported metrics say compression was not applied, the reported
compressed size is definitionally the original size. -/
lemma metrics_unapplied (s : RespWriter)
    (h : s.GetMetricsData.CompressionApplied = false) :
    s.GetMetricsData.CompressedSize = s.GetMetricsData.OriginalSize := by
  have h2 : s.GetCompressionApplied = false := h
  simp [RespWriter.GetMetricsData, RespWriter.GetCompressedSize,
    RespWriter.GetOriginalSize, h2]

/-- `Write` never invokes the metrics handler. -/
lemma Write_metricsLog (s : RespWriter) (b : List Byte) (drain cw : CWRes) :
    ((s.Write b drain cw).2).metricsLog = s.metricsLog := by
  cases hb : s.buf with
  | none => simp [RespWriter.Write, hb, writeToCompressor_metricsLog]
  | some bu =>
      by_cases hth : bu.length + b.length ≥ s.threshold
      · cases drain with
        | ok emitted =>
            simp [RespWriter.Write, hb, hth, writeToCompressor_metricsLog,
              RespWriter.emitToSink]
        | err n lost emitted e =>
            simp [RespWriter.Write, hb, hth, RespWriter.emitToSink]
      · simp [RespWriter.Write, hb, hth]

/-- C3: finalization appends exactly one `MetricsData` record to the metrics
log — on the passthrough path, on the streaming path, and on every error path
of either (flush error, compressor-close error) — while no Write or
WriteHeader ever appends one and a fresh writer's log is empty; and whenever
the reported record has `CompressionApplied = false` its `CompressedSize`
equals its `OriginalSize`. -/
theorem c3_metrics_exactly_once (s : RespWriter) (o : CloseOracle) :
    ((s.Close o).2).metricsLog
      = s.metricsLog ++ [((s.Close o).2).GetMetricsData] ∧
    (((s.Close o).2).GetMetricsData.CompressionApplied = false →
      ((s.Close o).2).GetMetricsData.CompressedSize
        = ((s.Close o).2).GetMetricsData.OriginalSize) ∧
    (∀ op : Op, (Op.step s op).metricsLog = s.metricsLog) ∧
    (∀ h0 th enc, (newResponseWriter h0 th enc).metricsLog = []) := by
  refine ⟨?_, metrics_unapplied _, ?_, fun h0 th enc => rfl⟩
  · cases hb : s.buf with
    | some bu =>
        cases hf : o.flush with
        | none =>
            simp [RespWriter.Close, hb, hf, RespWriter.emitToSink,
              RespWriter.GetMetricsData, RespWriter.GetCompressedSize,
              RespWriter.GetCompressionApplied, RespWriter.GetOriginalSize,
              RespWriter.GetEncoding, RespWriter.Swapped]
        | some ne =>
            simp [RespWriter.Close, hb, hf, RespWriter.emitToSink,
              RespWriter.GetMetricsData, RespWriter.GetCompressedSize,
              RespWriter.GetCompressionApplied, RespWriter.GetOriginalSize,
              RespWriter.GetEncoding, RespWriter.Swapped]
    | none =>
        simp [RespWriter.Close, hb, RespWriter.emitToSink,
          RespWriter.GetMetricsData, RespWriter.GetCompressedSize,
          RespWriter.GetCompressionApplied, RespWriter.GetOriginalSize,
          RespWriter.GetEncoding, RespWriter.Swapped]
  · intro op
    cases op with
    | write b drain cw => simpa [Op.step] using Write_metricsLog s b drain cw
    | writeHeader code => simp [Op.step, RespWriter.WriteHeader]

/-- Witness for C3: closing a fresh writer holding 3 buffered bytes, with a
flush that fails after 1 byte, still reports exactly one metrics record, with
equal sizes. -/
theorem c3_metrics_exactly_once_witness :
    ((RespWriter.Close
        { newResponseWriter [] 512 "gzip" with
            buf := some [1, 2, 3], bytesWritten := 3 }
        ⟨some (1, 9), ([], none)⟩).2).metricsLog
      = [{ OriginalSize := 3, CompressedSize := 3, CompressionApplied := false,
           EncodingUsed := "" }] := by
  have h := (c3_metrics_exactly_once
    { newResponseWriter [] 512 "gzip" with
        buf := some [1, 2, 3], bytesWritten := 3 }
    ⟨some (1, 9), ([], none)⟩).1
  simpa using h

/-! ### C10: an inner-destination error leaves bytesWritten unchanged -/

/-- C10: whenever `respWriter.Write` returns an error — whether from the
buffer-drain `io.Copy` at swap time or from a write to the compressor — the
`bytesWritten` counter is left unchanged even if the destination reported a
positive byte count, and the destination's count/error pair is returned
as-is; `bytesWritten` grows only on a fully successful Write, and then by
exactly the length written. -/
theorem c10_write_error_keeps_count (s : RespWriter) (b : List Byte)
    (drain cw : CWRes) :
    (∀ e, (s.Write b drain cw).1.2 = some e →
      ((s.Write b drain cw).2).bytesWritten = s.bytesWritten) ∧
    (∀ n lost em e, s.Swapped = true → cw = CWRes.err n lost em e →
      (s.Write b drain cw).1 = (n, some e)) ∧
    ((s.Write b drain cw).1.2 = none →
      ((s.Write b drain cw).2).bytesWritten = s.bytesWritten + b.length) := by
  refine ⟨?_, ?_, ?_⟩
  · intro e he
    cases hb : s.buf with
    | none =>
        cases cw with
        | ok emitted =>
            simp [RespWriter.Write, hb, writeToCompressor,
              RespWriter.emitToSink] at he
        | err n lost emitted e2 =>
            simp [RespWriter.Write, hb, writeToCompressor,
              RespWriter.emitToSink]
    | some bu =>
        by_cases hth : bu.length + b.length ≥ s.threshold
        · cases drain with
          | ok emitted =>
              cases cw with
              | ok em2 =>
                  simp [RespWriter.Write, hb, if_pos hth, writeToCompressor,
                    RespWriter.emitToSink] at he
              | err n lost em2 e2 =>
                  simp [RespWriter.Write, hb, if_pos hth, writeToCompressor,
                    RespWriter.emitToSink]
          | err n lost emitted e2 =>
              simp [RespWriter.Write, hb, if_pos hth, RespWriter.emitToSink]
        · simp [RespWriter.Write, hb, if_neg hth] at he
  · intro n lost em e hs hcw
    have hb : s.buf = none := by
      simpa [RespWriter.Swapped, Option.isNone_iff_eq_none] using hs
    subst hcw
    simp [RespWriter.Write, hb, writeToCompressor]
  · intro he
    cases hb : s.buf with
    | none =>
        cases cw with
        | ok emitted =>
            simp [RespWriter.Write, hb, writeToCompressor,
              RespWriter.emitToSink]
        | err n lost emitted e2 =>
            simp [RespWriter.Write, hb, writeToCompressor] at he
    | some bu =>
        by_cases hth : bu.length + b.length ≥ s.threshold
        · cases drain with
          | ok emitted =>
              cases cw with
              | ok em2 =>
                  simp [RespWriter.Write, hb, if_pos hth, writeToCompressor,
                    RespWriter.emitToSink]
              | err n lost em2 e2 =>
                  simp [RespWriter.Write, hb, if_pos hth,
                    writeToCompressor] at he
          | err n lost emitted e2 =>
              simp [RespWriter.Write, hb, if_pos hth] at he
        · simp [RespWriter.Write, hb, if_neg hth]

/-- Witness for C10: a swapped writer whose compressor accepts 1 of 2 bytes
and errors returns `(1, error)` and keeps `bytesWritten` at its old value. -/
theorem c10_write_error_keeps_count_witness :
    ((swappedState.Write [5, 6] (CWRes.ok []) (CWRes.err 1 0 [] 3)).1
      = (1, some 3)) ∧
    ((swappedState.Write [5, 6] (CWRes.ok [])
        (CWRes.err 1 0 [] 3)).2).bytesWritten = 7 := by
  refine ⟨?_, ?_⟩
  · exact (c10_write_error_keeps_count swappedState [5, 6] (CWRes.ok [])
      (CWRes.err 1 0 [] 3)).2.1 1 0 [] 3 rfl rfl
  · exact (c10_write_error_keeps_count swappedState [5, 6] (CWRes.ok [])
      (CWRes.err 1 0 [] 3)).1 3 (by decide)

/-! ### Close-behaviour lemmas -/

/-- Fields `Close` always preserves, and the one record it appends. -/
lemma Close_fields (s : RespWriter) (o : CloseOracle) :
    ((s.Close o).2).headers = s.headers ∧
    ((s.Close o).2).bytesWritten = s.bytesWritten ∧
    ((s.Close o).2).Swapped = s.Swapped ∧
    ((s.Close o).2).compressorIn = s.compressorIn ∧
    ((s.Close o).2).metricsLog
      = s.metricsLog ++ [((s.Close o).2).GetMetricsData] := by
  cases hb : s.buf with
  | some bu =>
      cases hf : o.flush with
      | none =>
          simp [RespWriter.Close, hb, hf, RespWriter.emitToSink,
            RespWriter.Swapped, RespWriter.GetMetricsData,
            RespWriter.GetCompressedSize, RespWriter.GetCompressionApplied,
            RespWriter.GetOriginalSize, RespWriter.GetEncoding]
      | some ne =>
          simp [RespWriter.Close, hb, hf, RespWriter.emitToSink,
            RespWriter.Swapped, RespWriter.GetMetricsData,
            RespWriter.GetCompressedSize, RespWriter.GetCompressionApplied,
            RespWriter.GetOriginalSize, RespWriter.GetEncoding]
  | none =>
      simp [RespWriter.Close, hb, RespWriter.emitToSink, RespWriter.Swapped,
        RespWriter.GetMetricsData, RespWriter.GetCompressedSize,
        RespWriter.GetCompressionApplied, RespWriter.GetOriginalSize,
        RespWriter.GetEncoding]

/-- On the streaming path, `Close` appends exactly the compressor's final
flush to the sink. -/
lemma Close_swapped_sink (s : RespWriter) (o : CloseOracle)
    (hb : s.buf = none) :
    ((s.Close o).2).sink = s.sink ++ o.cclose.1 := by
  simp [RespWriter.Close, hb, RespWriter.emitToSink]

/-! ### Buffering-phase lemmas: below the threshold nothing changes -/

/-- A single operation on a buffering writer that stays strictly below the
threshold: the bytes are appended to the buffer, `bytesWritten` grows by
their count, and nothing else happens (no sink bytes, no metrics, headers
only lose `Content-Length`). -/
lemma step_buffering (s : RespWriter) (op : Op) (bu : List Byte)
    (hbu : s.buf = some bu)
    (hlt : bu.length + op.bytes.length < s.threshold) :
    (Op.step s op).buf = some (bu ++ op.bytes) ∧
    (Op.step s op).bytesWritten = s.bytesWritten + op.bytes.length ∧
    (Op.step s op).threshold = s.threshold ∧
    (Op.step s op).sink = s.sink ∧
    (Op.step s op).trackerCount = s.trackerCount ∧
    (Op.step s op).metricsLog = s.metricsLog ∧
    (∀ k, k ≠ "Content-Length" →
      hHas (Op.step s op).headers k = hHas s.headers k) := by
  cases op with
  | write b drain cw =>
      have hth : ¬ bu.length + b.length ≥ s.threshold := by
        simp [Op.bytes] at hlt; omega
      refine ⟨?_, ?_, ?_, ?_, ?_, ?_, fun k hk => ?_⟩
      · simp [Op.step, RespWriter.Write, hbu, hth, Op.bytes]
      · simp [Op.step, RespWriter.Write, hbu, hth, Op.bytes]
      · simp [Op.step, RespWriter.Write, hbu, hth]
      · simp [Op.step, RespWriter.Write, hbu, hth]
      · simp [Op.step, RespWriter.Write, hbu, hth]
      · simp [Op.step, RespWriter.Write, hbu, hth]
      · simp [Op.step, RespWriter.Write, hbu, hth,
          hHas_hDel_ne s.headers "Content-Length" k hk]
  | writeHeader code =>
      refine ⟨?_, ?_, ?_, ?_, ?_, ?_, fun k hk => ?_⟩
      · simp [Op.step, RespWriter.WriteHeader, hbu, Op.bytes]
      · simp [Op.step, RespWriter.WriteHeader, Op.bytes]
      · simp [Op.step, RespWriter.WriteHeader]
      · simp [Op.step, RespWriter.WriteHeader]
      · simp [Op.step, RespWriter.WriteHeader]
      · simp [Op.step, RespWriter.WriteHeader]
      · simp [Op.step, RespWriter.WriteHeader,
          hHas_hDel_ne s.headers "Content-Length" k hk]

/-- Running a whole trace whose total byte count stays strictly below the
threshold keeps the writer buffering: the buffer accumulates exactly the
written bytes and nothing reaches the sink. -/
lemma run_buffering (ops : List Op) (s : RespWriter) (bu : List Byte)
    (hbu : s.buf = some bu)
    (hlt : bu.length + (writesTotal ops).length < s.threshold) :
    (run s ops).buf = some (bu ++ writesTotal ops) ∧
    (run s ops).bytesWritten = s.bytesWritten + (writesTotal ops).length ∧
    (run s ops).threshold = s.threshold ∧
    (run s ops).sink = s.sink ∧
    (run s ops).trackerCount = s.trackerCount ∧
    (run s ops).metricsLog = s.metricsLog ∧
    (∀ k, k ≠ "Content-Length" →
      hHas (run s ops).headers k = hHas s.headers k) := by
  induction ops generalizing s bu with
  | nil =>
      refine ⟨?_, ?_, rfl, rfl, rfl, rfl, fun k _ => rfl⟩ <;>
        simp [run, writesTotal, hbu]
  | cons op ops ih =>
      have hlen : (writesTotal (op :: ops)).length
          = op.bytes.length + (writesTotal ops).length := by
        simp [writesTotal]
      have hstep := step_buffering s op bu hbu (by rw [hlen] at hlt; omega)
      obtain ⟨sb, sw, sth, ssink, str, sml, shdr⟩ := hstep
      have ih' := ih (Op.step s op) (bu ++ op.bytes) sb
        (by rw [sth]; rw [hlen] at hlt; simp; omega)
      obtain ⟨b1, b2, b3, b4, b5, b6, b7⟩ := ih'
      have hrun : run s (op :: ops) = run (Op.step s op) ops := rfl
      refine ⟨?_, ?_, ?_, ?_, ?_, ?_, fun k hk => ?_⟩
      · rw [hrun, b1]; simp [writesTotal, List.append_assoc]
      · rw [hrun, b2, sw, hlen]; omega
      · rw [hrun, b3, sth]
      · rw [hrun, b4, ssink]
      · rw [hrun, b5, str]
      · rw [hrun, b6, sml]
      · rw [hrun, b7 k hk, shdr k hk]

/-! ### C1: bodies below the threshold are never compressed -/

/-- C1: when the total body size is strictly below the threshold, the writer
never swaps, sets neither `Content-Encoding` nor `Vary`, and the single
reported metrics record is `{originalSize = compressedSize = body size,
compressionApplied = false, encodingUsed = ""}`. -/
theorem c1_threshold_floor (h0 : Headers) (th : Nat) (enc : String)
    (ops : List Op) (o : CloseOracle)
    (hsz : (writesTotal ops).length < th)
    (hce : hHas h0 "Content-Encoding" = false)
    (hvy : hHas h0 "Vary" = false) :
    (finalState h0 th enc ops o).Swapped = false ∧
    hHas (finalState h0 th enc ops o).headers "Content-Encoding" = false ∧
    hHas (finalState h0 th enc ops o).headers "Vary" = false ∧
    (finalState h0 th enc ops o).metricsLog
      = [{ OriginalSize := (writesTotal ops).length,
           CompressedSize := (writesTotal ops).length,
           CompressionApplied := false, EncodingUsed := "" }] := by
  have hrun := run_buffering ops (newResponseWriter h0 th enc) []
    rfl (by simpa [newResponseWriter] using hsz)
  obtain ⟨rb, rw', _, _, _, rml, rhdr⟩ := hrun
  have hcl := Close_fields (run (newResponseWriter h0 th enc) ops) o
  have hsw : (finalState h0 th enc ops o).Swapped = false := by
    rw [finalState, hcl.2.2.1, RespWriter.Swapped, rb]; rfl
  refine ⟨hsw, ?_, ?_, ?_⟩
  · rw [finalState, hcl.1, rhdr _ (by decide)]
    simpa [newResponseWriter] using hce
  · rw [finalState, hcl.1, rhdr _ (by decide)]
    simpa [newResponseWriter] using hvy
  · have hbw : (finalState h0 th enc ops o).bytesWritten
        = (writesTotal ops).length := by
      rw [finalState, hcl.2.1, rw']; simp [newResponseWriter]
    have hmd : (finalState h0 th enc ops o).GetMetricsData
        = { OriginalSize := (writesTotal ops).length,
            CompressedSize := (writesTotal ops).length,
            CompressionApplied := false, EncodingUsed := "" } := by
      have h1 : (finalState h0 th enc ops o).GetCompressionApplied = false := hsw
      simp [RespWriter.GetMetricsData, RespWriter.GetOriginalSize,
        RespWriter.GetCompressedSize, RespWriter.GetEncoding, h1, hbw]
    have hlog : (finalState h0 th enc ops o).metricsLog
        = (run (newResponseWriter h0 th enc) ops).metricsLog
          ++ [(finalState h0 th enc ops o).GetMetricsData] := hcl.2.2.2.2
    rw [hlog, rml, hmd]
    simp [newResponseWriter]

/-- Witness for C1: a 10-byte body against the default 512-byte threshold. -/
theorem c1_threshold_floor_witness :
    (finalState [] 512 "gzip"
        [Op.write (List.replicate 10 65) (CWRes.ok []) (CWRes.ok [])]
        ⟨none, ([], none)⟩).metricsLog
      = [{ OriginalSize := 10, CompressedSize := 10,
           CompressionApplied := false, EncodingUsed := "" }] := by
  have h := (c1_threshold_floor [] 512 "gzip"
    [Op.write (List.replicate 10 65) (CWRes.ok []) (CWRes.ok [])]
    ⟨none, ([], none)⟩ (by decide) rfl rfl).2.2.2
  simpa [writesTotal, Op.bytes] using h

/-! ### C4: passthrough delivers the body byte-identically -/

/-- One step preserves the pair of invariants: a swapped writer has both
`Content-Encoding` and `Vary` set, and while `Content-Encoding` is unset no
byte has reached the sink. -/
lemma step_hdr_inv (s : RespWriter) (op : Op)
    (hq : s.Swapped = true →
      hHas s.headers "Content-Encoding" = true ∧
      hHas s.headers "Vary" = true)
    (hp : hHas s.headers "Content-Encoding" = false → s.sink = []) :
    ((Op.step s op).Swapped = true →
      hHas (Op.step s op).headers "Content-Encoding" = true ∧
      hHas (Op.step s op).headers "Vary" = true) ∧
    (hHas (Op.step s op).headers "Content-Encoding" = false →
      (Op.step s op).sink = []) := by
  cases op with
  | writeHeader code =>
      have hce := hHas_hDel_ne s.headers "Content-Length" "Content-Encoding"
        (by decide)
      have hva := hHas_hDel_ne s.headers "Content-Length" "Vary" (by decide)
      constructor
      · intro hsw
        have := hq (by simpa [Op.step, RespWriter.WriteHeader,
          RespWriter.Swapped] using hsw)
        simpa [Op.step, RespWriter.WriteHeader, hce, hva] using this
      · intro hno
        have := hp (by simpa [Op.step, RespWriter.WriteHeader, hce] using hno)
        simpa [Op.step, RespWriter.WriteHeader] using this
  | write b drain cw =>
      cases hb : s.buf with
      | none =>
          have hsw : s.Swapped = true := by simp [RespWriter.Swapped, hb]
          obtain ⟨hqc, hqv⟩ := hq hsw
          have hce := hHas_hDel_ne s.headers "Content-Length"
            "Content-Encoding" (by decide)
          have hva := hHas_hDel_ne s.headers "Content-Length" "Vary"
            (by decide)
          have hh : ((Op.step s (Op.write b drain cw))).headers
              = hDel s.headers "Content-Length" := by
            simp [Op.step, RespWriter.Write, hb, writeToCompressor_headers]
          constructor
          · intro _
            rw [hh, hce, hva]; exact ⟨hqc, hqv⟩
          · intro hno
            rw [hh, hce, hqc] at hno
            exact absurd hno (by simp)
      | some bu =>
          by_cases hth : bu.length + b.length ≥ s.threshold
          · have hh : hHas ((Op.step s (Op.write b drain cw))).headers
                "Content-Encoding" = true ∧
                hHas ((Op.step s (Op.write b drain cw))).headers "Vary"
                  = true := by
              cases drain with
              | ok emitted =>
                  have hspec := swapHeaders_spec s.headers s.encoding
                  constructor <;>
                    simp [Op.step, RespWriter.Write, hb, hth,
                      writeToCompressor_headers, RespWriter.emitToSink,
                      hspec.2.1, hspec.2.2]
              | err n lost emitted e =>
                  have hspec := swapHeaders_spec s.headers s.encoding
                  constructor <;>
                    simp [Op.step, RespWriter.Write, hb, hth,
                      RespWriter.emitToSink, hspec.2.1, hspec.2.2]
            constructor
            · intro _; exact hh
            · intro hno
              rw [hh.1] at hno
              exact absurd hno (by simp)
          · have hce := hHas_hDel_ne s.headers "Content-Length"
              "Content-Encoding" (by decide)
            have hva := hHas_hDel_ne s.headers "Content-Length" "Vary"
              (by decide)
            have hsw : (Op.step s (Op.write b drain cw)).Swapped = false := by
              simp [Op.step, RespWriter.Write, hb, hth, RespWriter.Swapped]
            constructor
            · intro hcontra
              rw [hsw] at hcontra
              exact absurd hcontra (by simp)
            · intro hno
              have := hp (by
                simpa [Op.step, RespWriter.Write, hb, hth, hce] using hno)
              simpa [Op.step, RespWriter.Write, hb, hth] using this

/-- The invariant pair holds after any run started from a state satisfying
it. -/
lemma run_hdr_inv (ops : List Op) (s : RespWriter)
    (hq : s.Swapped = true →
      hHas s.headers "Content-Encoding" = true ∧
      hHas s.headers "Vary" = true)
    (hp : hHas s.headers "Content-Encoding" = false → s.sink = []) :
    ((run s ops).Swapped = true →
      hHas (run s ops).headers "Content-Encoding" = true ∧
      hHas (run s ops).headers "Vary" = true) ∧
    (hHas (run s ops).headers "Content-Encoding" = false →
      (run s ops).sink = []) := by
  induction ops generalizing s with
  | nil => exact ⟨hq, hp⟩
  | cons op ops ih =>
      have hstep := step_hdr_inv s op hq hp
      exact ih (Op.step s op) hstep.1 hstep.2

/-- When every drain the trace performs succeeds, a set `Content-Encoding`
or `Vary` header implies the writer really swapped (one step). -/
lemma step_set_implies_swapped (s : RespWriter) (op : Op)
    (hok : op.drainOk = true)
    (hsc : hHas s.headers "Content-Encoding" = true → s.Swapped = true)
    (hsv : hHas s.headers "Vary" = true → s.Swapped = true) :
    (hHas (Op.step s op).headers "Content-Encoding" = true →
      (Op.step s op).Swapped = true) ∧
    (hHas (Op.step s op).headers "Vary" = true →
      (Op.step s op).Swapped = true) := by
  cases op with
  | writeHeader code =>
      have hce := hHas_hDel_ne s.headers "Content-Length" "Content-Encoding"
        (by decide)
      have hva := hHas_hDel_ne s.headers "Content-Length" "Vary" (by decide)
      constructor
      · intro hset
        have := hsc (by simpa [Op.step, RespWriter.WriteHeader, hce]
          using hset)
        simpa [Op.step, RespWriter.WriteHeader, RespWriter.Swapped] using this
      · intro hset
        have := hsv (by simpa [Op.step, RespWriter.WriteHeader, hva]
          using hset)
        simpa [Op.step, RespWriter.WriteHeader, RespWriter.Swapped] using this
  | write b drain cw =>
      cases hb : s.buf with
      | none =>
          have hsw : (Op.step s (Op.write b drain cw)).Swapped = true := by
            simp [Op.step, RespWriter.Write, hb, RespWriter.Swapped,
              writeToCompressor_buf]
          exact ⟨fun _ => hsw, fun _ => hsw⟩
      | some bu =>
          by_cases hth : bu.length + b.length ≥ s.threshold
          · have hsw : (Op.step s (Op.write b drain cw)).Swapped
                = true := by
              cases drain with
              | ok emitted =>
                  simp [Op.step, RespWriter.Write, hb, hth,
                    RespWriter.Swapped, writeToCompressor_buf,
                    RespWriter.emitToSink]
              | err n lost emitted e => simp [Op.drainOk] at hok
            exact ⟨fun _ => hsw, fun _ => hsw⟩
          · have hce := hHas_hDel_ne s.headers "Content-Length"
              "Content-Encoding" (by decide)
            have hva := hHas_hDel_ne s.headers "Content-Length" "Vary"
              (by decide)
            constructor
            · intro hset
              have hs := hsc (by
                simpa [Op.step, RespWriter.Write, hb, hth, hce] using hset)
              rw [RespWriter.Swapped, hb] at hs
              exact absurd hs (by simp)
            · intro hset
              have hs := hsv (by
                simpa [Op.step, RespWriter.Write, hb, hth, hva] using hset)
              rw [RespWriter.Swapped, hb] at hs
              exact absurd hs (by simp)

/-- Trace version of `step_set_implies_swapped`. -/
lemma run_set_implies_swapped (ops : List Op) (s : RespWriter)
    (hok : ∀ op ∈ ops, op.drainOk = true)
    (hsc : hHas s.headers "Content-Encoding" = true → s.Swapped = true)
    (hsv : hHas s.headers "Vary" = true → s.Swapped = true) :
    (hHas (run s ops).headers "Content-Encoding" = true →
      (run s ops).Swapped = true) ∧
    (hHas (run s ops).headers "Vary" = true →
      (run s ops).Swapped = true) := by
  induction ops generalizing s with
  | nil => exact ⟨hsc, hsv⟩
  | cons op ops ih =>
      have hstep := step_set_implies_swapped s op
        (hok op (by simp)) hsc hsv
      exact ih (Op.step s op) (fun x hx => hok x (by simp [hx]))
        hstep.1 hstep.2

/-- C2 counterexample to the claim as stated: in the `failedDrainOps` trace
the final state has `Content-Encoding` (and `Vary`) set although the writer
never swapped and compression is reported as not applied — the "only if"
direction of the claimed iff fails when the buffer drain into the compressor
errors. -/
theorem c2_headers_iff_cex :
    hHas (run (newResponseWriter [] 2 "gzip") failedDrainOps).headers
      "Content-Encoding" = true ∧
    hHas (run (newResponseWriter [] 2 "gzip") failedDrainOps).headers
      "Vary" = true ∧
    (run (newResponseWriter [] 2 "gzip") failedDrainOps).Swapped = false ∧
    (run (newResponseWriter [] 2 "gzip")
        failedDrainOps).GetCompressionApplied = false := by
  refine ⟨?_, ?_, ?_, ?_⟩ <;> decide

/-- C2 amended: for a fresh writer whose initial headers carry neither
`Content-Encoding` nor `Vary`, (a) over any trace in which no buffer drain
into the compressor fails, `Content-Encoding` and `Vary` are set if and only
if the writer swapped (a failed drain can leave them set without the swap
completing); and (b) unconditionally — over every trace, drain failures
included — while `Content-Encoding` is not set no body byte has been emitted
to the sink, so whenever the headers are set, that happens before any byte
reaches the transport. -/
theorem c2_headers_iff_amended (h0 : Headers) (th : Nat) (enc : String)
    (ops : List Op)
    (hce : hHas h0 "Content-Encoding" = false)
    (hvy : hHas h0 "Vary" = false) :
    ((∀ op ∈ ops, op.drainOk = true) →
      (hHas (run (newResponseWriter h0 th enc) ops).headers "Content-Encoding"
        = (run (newResponseWriter h0 th enc) ops).Swapped) ∧
      (hHas (run (newResponseWriter h0 th enc) ops).headers "Vary"
        = (run (newResponseWriter h0 th enc) ops).Swapped)) ∧
    (∀ ops2 : List Op,
      hHas (run (newResponseWriter h0 th enc) ops2).headers "Content-Encoding"
        = false →
      (run (newResponseWriter h0 th enc) ops2).sink = []) := by
  have hq0 : (newResponseWriter h0 th enc).Swapped = true →
      hHas (newResponseWriter h0 th enc).headers "Content-Encoding" = true ∧
      hHas (newResponseWriter h0 th enc).headers "Vary" = true := by
    intro hcontra
    simp [newResponseWriter, RespWriter.Swapped] at hcontra
  have hp0 : hHas (newResponseWriter h0 th enc).headers "Content-Encoding"
      = false → (newResponseWriter h0 th enc).sink = [] := fun _ => rfl
  have hsc0 : hHas (newResponseWriter h0 th enc).headers "Content-Encoding"
      = true → (newResponseWriter h0 th enc).Swapped = true := by
    intro hcontra
    rw [show (newResponseWriter h0 th enc).headers = h0 from rfl, hce]
      at hcontra
    exact absurd hcontra (by simp)
  have hsv0 : hHas (newResponseWriter h0 th enc).headers "Vary" = true →
      (newResponseWriter h0 th enc).Swapped = true := by
    intro hcontra
    rw [show (newResponseWriter h0 th enc).headers = h0 from rfl, hvy]
      at hcontra
    exact absurd hcontra (by simp)
  refine ⟨fun hok => ?_, fun ops2 =>
    (run_hdr_inv ops2 (newResponseWriter h0 th enc) hq0 hp0).2⟩
  have hfwd := run_hdr_inv ops (newResponseWriter h0 th enc) hq0 hp0
  have hbwd := run_set_implies_swapped ops (newResponseWriter h0 th enc)
    hok hsc0 hsv0
  refine ⟨?_, ?_⟩
  · cases hsw : (run (newResponseWriter h0 th enc) ops).Swapped with
    | true => exact (hfwd.1 hsw).1
    | false =>
        cases hset : hHas (run (newResponseWriter h0 th enc) ops).headers
            "Content-Encoding" with
        | true => rw [hbwd.1 hset] at hsw; exact absurd hsw (by simp)
        | false => rfl
  · cases hsw : (run (newResponseWriter h0 th enc) ops).Swapped with
    | true => exact (hfwd.1 hsw).2
    | false =>
        cases hset : hHas (run (newResponseWriter h0 th enc) ops).headers
            "Vary" with
        | true => rw [hbwd.2 hset] at hsw; exact absurd hsw (by simp)
        | false => rfl

/-- Witness for the amended C2: a one-write trace that swaps has both
headers set, reported equal to the swapped flag; and on a buffering trace
with `Content-Encoding` still unset, the unconditional timing conjunct
yields an empty sink. -/
theorem c2_headers_iff_amended_witness :
    hHas (run (newResponseWriter [] 1 "gzip") c9ops).headers
      "Content-Encoding"
      = (run (newResponseWriter [] 1 "gzip") c9ops).Swapped ∧
    (run (newResponseWriter [] 1 "gzip") c9ops).Swapped = true ∧
    (run (newResponseWriter [] 2 "gzip")
      [Op.write [7] (CWRes.ok []) (CWRes.ok [])]).sink = [] := by
  have h := c2_headers_iff_amended [] 1 "gzip" c9ops rfl rfl
  have h2 := c2_headers_iff_amended [] 2 "gzip" [] rfl rfl
  exact ⟨(h.1 (by decide)).1, by decide,
    h2.2 [Op.write [7] (CWRes.ok []) (CWRes.ok [])] (by decide)⟩

/-! ### C9: round-trip through the compressor -/

/-- A fully successful step extends the pending plaintext by exactly the
bytes written: the buffer accumulates them before the swap, the compressor's
accepted input accumulates them at and after the swap. -/
lemma step_pending_allOk (s : RespWriter) (op : Op)
    (hok : op.allOk = true) :
    (Op.step s op).pending = s.pending ++ op.bytes := by
  cases op with
  | writeHeader code =>
      cases hb : s.buf <;>
        simp [Op.step, RespWriter.WriteHeader, RespWriter.pending, Op.bytes,
          hb]
  | write b drain cw =>
      cases drain with
      | err n lost emitted e => simp [Op.allOk] at hok
      | ok emitted =>
          cases cw with
          | err n lost emitted2 e => simp [Op.allOk] at hok
          | ok emitted2 =>
              cases hb : s.buf with
              | none =>
                  simp [Op.step, RespWriter.Write, hb, writeToCompressor,
                    RespWriter.emitToSink, RespWriter.pending, Op.bytes]
              | some bu =>
                  by_cases hth : bu.length + b.length ≥ s.threshold
                  · simp [Op.step, RespWriter.Write, hb, hth,
                      writeToCompressor, RespWriter.emitToSink,
                      RespWriter.pending, Op.bytes]
                  · simp [Op.step, RespWriter.Write, hb, hth,
                      RespWriter.pending, Op.bytes]

/-- Over a fully successful trace, the pending plaintext is the initial
pending plaintext followed by everything the application wrote. -/
lemma run_pending_allOk (ops : List Op) (s : RespWriter)
    (hok : ∀ op ∈ ops, op.allOk = true) :
    (run s ops).pending = s.pending ++ writesTotal ops := by
  induction ops generalizing s with
  | nil => simp [run, writesTotal]
  | cons op ops ih =>
      have hstep := step_pending_allOk s op (hok op (by simp))
      have htail := ih (Op.step s op) (fun x hx => hok x (by simp [hx]))
      calc (run s (op :: ops)).pending
          = (Op.step s op).pending ++ writesTotal ops := htail
        _ = s.pending ++ op.bytes ++ writesTotal ops := by rw [hstep]
        _ = s.pending ++ writesTotal (op :: ops) := by
            simp [writesTotal, List.append_assoc]

/-- C9: over any fully successful trace that ends up swapped, the middleware
feeds the compressor exactly the concatenation of the application's writes;
therefore, whenever the opaque codec's total sink output is the encoding of
its total accepted input (`hcodec`) and its decoder inverts its encoder on
the body (`hrt`), the bytes delivered to the sink decode to exactly the
original body. -/
theorem c9_roundtrip (h0 : Headers) (th : Nat) (enc : String)
    (ops : List Op) (o : CloseOracle)
    (encode decode : List Byte → List Byte)
    (hok : ∀ op ∈ ops, op.allOk = true)
    (hsw : (run (newResponseWriter h0 th enc) ops).Swapped = true)
    (hcodec : (finalState h0 th enc ops o).sink
      = encode ((run (newResponseWriter h0 th enc) ops).compressorIn))
    (hrt : decode (encode (writesTotal ops)) = writesTotal ops) :
    ((run (newResponseWriter h0 th enc) ops).compressorIn
      = writesTotal ops) ∧
    (finalState h0 th enc ops o).sink = encode (writesTotal ops) ∧
    decode ((finalState h0 th enc ops o).sink) = writesTotal ops := by
  have hpend := run_pending_allOk ops (newResponseWriter h0 th enc) hok
  have hbnone : (run (newResponseWriter h0 th enc) ops).buf = none := by
    simpa [RespWriter.Swapped, Option.isNone_iff_eq_none] using hsw
  have hin : (run (newResponseWriter h0 th enc) ops).compressorIn
      = writesTotal ops := by
    have : (run (newResponseWriter h0 th enc) ops).pending
        = (run (newResponseWriter h0 th enc) ops).compressorIn := by
      simp [RespWriter.pending, hbnone]
    rw [this] at hpend
    simpa [newResponseWriter, RespWriter.pending] using hpend
  refine ⟨hin, ?_, ?_⟩
  · rw [hcodec, hin]
  · rw [hcodec, hin, hrt]

/-- Witness for C9 with a concrete invertible codec (prepend a 0 byte): the
swapping one-write trace delivers `encode [5] = [0, 5]` to the sink, which
decodes back to the original body `[5]`. -/
theorem c9_roundtrip_witness :
    (finalState [] 1 "gzip" c9ops ⟨none, ([0, 5], none)⟩).sink = [0, 5] ∧
    List.tail (finalState [] 1 "gzip" c9ops ⟨none, ([0, 5], none)⟩).sink
      = [5] := by
  have h := c9_roundtrip [] 1 "gzip" c9ops ⟨none, ([0, 5], none)⟩
    (fun l => 0 :: l) (fun l => l.tail) (by decide) (by decide)
    (by decide) rfl
  exact ⟨h.2.1, h.2.2⟩

/-! ### C5: negotiation selects the maximum candidate -/

/-- `keyBetter` characterised as a proposition. -/
lemma keyBetter_iff (cfg : NegotiationConfig) (x y : Algo × Nat) :
    keyBetter cfg x y = true ↔
      (y.2 < x.2 ∨ (x.2 = y.2 ∧
        (cfg.priority y.1 < cfg.priority x.1 ∨
          (cfg.priority x.1 = cfg.priority y.1 ∧
            y.1.fallbackRank < x.1.fallbackRank)))) := by
  simp [keyBetter]

lemma keyBetter_irrefl (cfg : NegotiationConfig) (x : Algo × Nat) :
    keyBetter cfg x x = false := by
  rw [Bool.eq_false_iff, Ne, keyBetter_iff]
  omega

/-- If `x` beats `b` but does not beat `r`, then `b` does not beat `r`. -/
lemma keyBetter_asym_chain (cfg : NegotiationConfig) (x b r : Algo × Nat)
    (h1 : keyBetter cfg x b = true) (h2 : keyBetter cfg x r = false) :
    keyBetter cfg b r = false := by
  rw [keyBetter_iff] at h1
  rw [Bool.eq_false_iff, Ne, keyBetter_iff] at h2
  rw [Bool.eq_false_iff, Ne, keyBetter_iff]
  omega

/-- Negative transitivity of `keyBetter`. -/
lemma keyBetter_neg_trans (cfg : NegotiationConfig) (x b r : Algo × Nat)
    (h1 : keyBetter cfg x b = false) (h2 : keyBetter cfg b r = false) :
    keyBetter cfg x r = false := by
  rw [Bool.eq_false_iff, Ne, keyBetter_iff] at h1 h2
  rw [Bool.eq_false_iff, Ne, keyBetter_iff]
  omega

/-- The fold inside `pickBest` returns an element of the accumulator-or-list
that no listed element strictly beats. -/
lemma foldl_pick_spec (cfg : NegotiationConfig) (l : List (Algo × Nat))
    (b : Algo × Nat) :
    (l.foldl (fun acc x => if keyBetter cfg x acc then x else acc) b = b ∨
      l.foldl (fun acc x => if keyBetter cfg x acc then x else acc) b ∈ l) ∧
    keyBetter cfg b
      (l.foldl (fun acc x => if keyBetter cfg x acc then x else acc) b)
      = false ∧
    ∀ y ∈ l, keyBetter cfg y
      (l.foldl (fun acc x => if keyBetter cfg x acc then x else acc) b)
      = false := by
  induction l generalizing b with
  | nil => exact ⟨Or.inl rfl, keyBetter_irrefl cfg b, by simp⟩
  | cons x l ih =>
      by_cases hxb : keyBetter cfg x b = true
      · obtain ⟨hmem, hb, hall⟩ := ih x
        rw [List.foldl_cons, if_pos hxb]
        refine ⟨?_, ?_, ?_⟩
        · rcases hmem with he | hm
          · exact Or.inr (by rw [he]; exact List.mem_cons_self x l)
          · exact Or.inr (List.mem_cons_of_mem x hm)
        · exact keyBetter_asym_chain cfg x b _ hxb hb
        · intro y hy
          rcases List.mem_cons.mp hy with he | hm
          · exact he ▸ hb
          · exact hall y hm
      · obtain ⟨hmem, hb, hall⟩ := ih b
        rw [List.foldl_cons, if_neg hxb]
        refine ⟨?_, hb, ?_⟩
        · rcases hmem with he | hm
          · exact Or.inl he
          · exact Or.inr (List.mem_cons_of_mem x hm)
        · intro y hy
          rcases List.mem_cons.mp hy with he | hm
          · exact he ▸ keyBetter_neg_trans cfg x b _
              (Bool.eq_false_iff.mpr hxb) hb
          · exact hall y hm

/-- `pickBest` returns a listed candidate that no candidate strictly
beats, and `none` exactly on the empty list. -/
lemma pickBest_spec (cfg : NegotiationConfig) (l : List (Algo × Nat)) :
    (l = [] → pickBest cfg l = none) ∧
    (∀ r, pickBest cfg l = some r →
      r ∈ l ∧ ∀ y ∈ l, keyBetter cfg y r = false) := by
  cases l with
  | nil => exact ⟨fun _ => rfl, fun r hr => by simp [pickBest] at hr⟩
  | cons c cs =>
      refine ⟨fun hc => by simp at hc, fun r hr => ?_⟩
      have hr' : cs.foldl (fun b x => if keyBetter cfg x b then x else b) c
          = r := by simpa [pickBest] using hr
      obtain ⟨hmem, hc, hall⟩ := foldl_pick_spec cfg cs c
      rw [hr'] at hmem hc hall
      refine ⟨?_, ?_⟩
      · rcases hmem with he | hm
        · exact he ▸ List.mem_cons_self c cs
        · exact List.mem_cons_of_mem c hm
      · intro y hy
        rcases List.mem_cons.mp hy with he | hm
        · exact he ▸ hc
        · exact hall y hm

/-- C5: negotiation returns `none` when the request is excluded, when the
header is absent or empty, and when no candidate remains (in particular when
every acceptable token has `q = 0`); otherwise it returns an algorithm that
is a candidate — an enabled algorithm offered with `q > 0` — that no
candidate strictly beats under the order (q descending, configured priority
descending, fallback order brotli > gzip > deflate > zstd); and whenever a
candidate exists, an algorithm is returned. -/
theorem c5_negotiate_correct (cfg : NegotiationConfig) (h : String) :
    (∀ h2, negotiate cfg true h2 = none) ∧
    (∀ ex, negotiate cfg ex none = none) ∧
    (negotiate cfg false (some "") = none) ∧
    (allCands cfg h = [] → negotiate cfg false (some h) = none) ∧
    (∀ a, negotiate cfg false (some h) = some a →
      ∃ q, (a, q) ∈ allCands cfg h ∧
        ∀ c ∈ allCands cfg h, keyBetter cfg c (a, q) = false) ∧
    (h ≠ "" → allCands cfg h ≠ [] →
      ∃ a, negotiate cfg false (some h) = some a) := by
  refine ⟨fun h2 => rfl, fun ex => by cases ex <;> rfl, rfl, ?_, ?_, ?_⟩
  · intro hc
    by_cases he : h = ""
    · simp [negotiate, he]
    · simp [negotiate, he, hc, pickBest]
  · intro a ha
    by_cases he : h = ""
    · rw [he] at ha
      simp [negotiate] at ha
    · have ha' : (pickBest cfg (allCands cfg h)).map (fun c => c.1)
          = some a := by
        simpa [negotiate, he] using ha
      obtain ⟨r, hr, hra⟩ := Option.map_eq_some'.mp ha'
      obtain ⟨hmem, hmax⟩ := (pickBest_spec cfg (allCands cfg h)).2 r hr
      have hreq : (a, r.2) = r := by
        rw [← hra]
      refine ⟨r.2, ?_, ?_⟩
      · rw [hreq]; exact hmem
      · rw [hreq]; exact hmax
  · intro he hc
    cases hl : allCands cfg h with
    | nil => exact absurd hl hc
    | cons c cs =>
        refine ⟨(cs.foldl (fun b x => if keyBetter cfg x b then x else b)
          c).1, ?_⟩
        simp [negotiate, he, hl, pickBest]

/-- Witness for C5 at the quality-weighted-selection example from the tests:
gzip carries the highest q and is returned, and it is a maximal candidate. -/
theorem c5_negotiate_correct_witness :
    negotiate defaultNegotiationConfig false
      (some "br;q=0.5, gzip;q=0.7, deflate;q=0.3") = some Algo.gzip ∧
    ∃ q, (Algo.gzip, q) ∈ allCands defaultNegotiationConfig
        "br;q=0.5, gzip;q=0.7, deflate;q=0.3" ∧
      ∀ c ∈ allCands defaultNegotiationConfig
          "br;q=0.5, gzip;q=0.7, deflate;q=0.3",
        keyBetter defaultNegotiationConfig c (Algo.gzip, q) = false := by
  have h1 : negotiate defaultNegotiationConfig false
      (some "br;q=0.5, gzip;q=0.7, deflate;q=0.3") = some Algo.gzip := by
    decide
  exact ⟨h1, (c5_negotiate_correct defaultNegotiationConfig
    "br;q=0.5, gzip;q=0.7, deflate;q=0.3").2.2.2.2.1 Algo.gzip h1⟩

/-! ### C6: unsupported or over-budget request encodings are rejected -/

/-- Any unknown or disabled token makes full resolution fail. -/
lemma resolveAll_eq_none (cfg : DecompressConfig) (ts : List (List Char))
    (hbad : ∃ t ∈ ts, resolveTok cfg t = none) :
    resolveAll cfg ts = none := by
  induction ts with
  | nil => simp at hbad
  | cons t ts ih =>
      obtain ⟨u, hu, hn⟩ := hbad
      rcases List.mem_cons.mp hu with he | hm
      · rw [he] at hn
        simp [resolveAll, hn]
      · cases hr : resolveTok cfg t with
        | none => simp [resolveAll, hr]
        | some a => simp [resolveAll, hr, ih ⟨u, hm, hn⟩]

/-- C6: with request decompression enabled, a `Content-Encoding` header that
names any unknown or disabled algorithm, or whose token list has more
entries than `maxDecodeSteps`, makes the pipeline reject the request (the
unsupported-media-type-class outcome, before application code runs) rather
than pass a raw or partially decoded body through. -/
theorem c6_decode_reject (cfg : DecompressConfig) (h : String)
    (hdec : cfg.decompressEnabled = true)
    (hbad : (∃ t ∈ ceTokens h, resolveTok cfg t = none) ∨
      (ceTokens h).length > cfg.maxDecodeSteps) :
    decompressPipeline cfg (some h) = DecompressOutcome.rejected := by
  by_cases hlen : (ceTokens h).length > cfg.maxDecodeSteps
  · simp [decompressPipeline, hdec, hlen]
  · rcases hbad with hex | hlen2
    · simp [decompressPipeline, hdec, hlen, resolveAll_eq_none cfg _ hex]
    · exact absurd hlen2 hlen

/-- Witness for C6 at the decode-step-bound example from the spec:
`Content-Encoding: gzip, gzip` against `maxDecodeSteps = 1` is rejected. -/
theorem c6_decode_reject_witness :
    decompressPipeline ⟨true, 1, fun _ => true⟩ (some "gzip, gzip")
      = DecompressOutcome.rejected :=
  c6_decode_reject ⟨true, 1, fun _ => true⟩ "gzip, gzip" rfl
    (Or.inr (by decide))

end Compress
